import Mathlib

/-!
Verification development for the arithmetic_parser repository.

The parsing core lives in src/lib.rs: parse_string tokenizes a string by
surrounding every parenthesis and operator symbol with spaces and splitting on
spaces, parse_tokens classifies tokens and reduces an operand/operator stack,
and Tree::execute evaluates the resulting tree against a variable table.

Modelling conventions:
- Rust f64 values are modelled as rationals.  Every numeric scenario in the
  claims only involves small integers whose sums, differences, products and
  exact quotients are computed exactly by f64 as well, so the rational model
  agrees with the source on all inputs the theorems touch.  Division by zero
  yields an IEEE special value (still an Ok) in the source; rational division
  by zero is total as well, and no claim depends on the value produced.
- A Rust Result is modelled by RunResult.ok / RunResult.err; process aborts
  (assert failures, explicit aborts, the unimplemented evaluator arm) are
  modelled by the distinct RunResult.panic outcome.
- The recursive descent into parenthesized groups recurses on strictly shorter
  token lists; a fuel parameter (always instantiated with enough fuel,
  list length + 1, by parse_tokens) makes the recursion structural.
- The dead functions of src/lib.rs (process_stack, process_unary,
  process_binary; their only call site is commented out) are not modelled.
-/

namespace ArithmeticParser

/-- Outcome of running a piece of the Rust code: an Ok value, an Err with its
message, or a process abort (assert failure or unimplemented arm). -/
inductive RunResult (α : Type) where
  | ok : α → RunResult α
  | err : String → RunResult α
  | panic : RunResult α
  deriving DecidableEq

/-- Mapping over the Ok value of a RunResult. -/
def RunResult.map {α β : Type} (f : α → β) : RunResult α → RunResult β
  | .ok a => .ok (f a)
  | .err e => .err e
  | .panic => .panic

/-- Mirrors the constant OPEN_PARENTHESIS of src/lib.rs. -/
def OPEN_PARENTHESIS : String := "("

/-- Mirrors the constant CLOSED_PARENTHESIS of src/lib.rs. -/
def CLOSED_PARENTHESIS : String := ")"

/-- Mirrors enum Operator of src/lib.rs (Plus, Minus, Star, Slash). -/
inductive Operator where
  | plus
  | minus
  | star
  | slash
  deriving DecidableEq

/-- Mirrors Operator::get_priority: 0 for Plus/Minus, 1 for Star/Slash.
The source uses u8; the values are far from overflow, so Nat is used. -/
def Operator.get_priority : Operator → Nat
  | .plus => 0
  | .minus => 0
  | .star => 1
  | .slash => 1

/-- Mirrors Operator::execute_binary over the rational model of f64. -/
def Operator.execute_binary (o : Operator) (x y : ℚ) : ℚ :=
  match o with
  | .plus => x + y
  | .minus => x - y
  | .star => x * y
  | .slash => x / y

/-- Mirrors enum Tree of src/lib.rs: NumberLeaf(f64), VariableLeaf(String),
and Node with an Operator, an optional left operand and a right operand. -/
inductive Tree where
  | numberLeaf : ℚ → Tree
  | variableLeaf : String → Tree
  | node : Operator → Option Tree → Tree → Tree

/-- Decidable equality of trees, written by hand because the automatic
derivation does not handle the nested Option. -/
def Tree.decEq : (a b : Tree) → Decidable (a = b)
  | .numberLeaf x, .numberLeaf y =>
    if h : x = y then isTrue (h ▸ rfl)
    else isFalse (fun hc => h (Tree.numberLeaf.inj hc))
  | .numberLeaf _, .variableLeaf _ => isFalse (fun hc => Tree.noConfusion hc)
  | .numberLeaf _, .node _ _ _ => isFalse (fun hc => Tree.noConfusion hc)
  | .variableLeaf _, .numberLeaf _ => isFalse (fun hc => Tree.noConfusion hc)
  | .variableLeaf x, .variableLeaf y =>
    if h : x = y then isTrue (h ▸ rfl)
    else isFalse (fun hc => h (Tree.variableLeaf.inj hc))
  | .variableLeaf _, .node _ _ _ => isFalse (fun hc => Tree.noConfusion hc)
  | .node _ _ _, .numberLeaf _ => isFalse (fun hc => Tree.noConfusion hc)
  | .node _ _ _, .variableLeaf _ => isFalse (fun hc => Tree.noConfusion hc)
  | .node o1 none r1, .node o2 none r2 =>
    if ho : o1 = o2 then
      match Tree.decEq r1 r2 with
      | isTrue hr => isTrue (by rw [ho, hr])
      | isFalse hr => isFalse (fun hc => hr (Tree.node.inj hc).2.2)
    else isFalse (fun hc => ho (Tree.node.inj hc).1)
  | .node _ none _, .node _ (some _) _ =>
    isFalse (fun hc => Option.noConfusion (Tree.node.inj hc).2.1)
  | .node _ (some _) _, .node _ none _ =>
    isFalse (fun hc => Option.noConfusion (Tree.node.inj hc).2.1)
  | .node o1 (some la) r1, .node o2 (some lb) r2 =>
    if ho : o1 = o2 then
      match Tree.decEq la lb, Tree.decEq r1 r2 with
      | isTrue hl, isTrue hr => isTrue (by rw [ho, hl, hr])
      | isFalse hl, _ =>
        isFalse (fun hc => hl (Option.some.inj (Tree.node.inj hc).2.1))
      | _, isFalse hr => isFalse (fun hc => hr (Tree.node.inj hc).2.2)
    else isFalse (fun hc => ho (Tree.node.inj hc).1)

instance : DecidableEq Tree := Tree.decEq

/-- Mirrors enum ParsedToken of src/lib.rs. -/
inductive ParsedToken where
  | operand : Tree → ParsedToken
  | operator : Operator → ParsedToken
  deriving DecidableEq

/-- Mirrors ParsedToken::is_operand. -/
def ParsedToken.is_operand : ParsedToken → Bool
  | .operand _ => true
  | _ => false

/-- Mirrors ParsedToken::is_operator. -/
def ParsedToken.is_operator : ParsedToken → Bool
  | .operator _ => true
  | _ => false

/-- Mirrors try_parse_operator of src/lib.rs. -/
def try_parse_operator (token : String) : Option Operator :=
  if token = "+" then some Operator.plus
  else if token = "-" then some Operator.minus
  else if token = "*" then some Operator.star
  else if token = "/" then some Operator.slash
  else none

/-- Numeric value of a list of decimal digit characters. -/
def read_digits (ds : List Char) : Nat :=
  ds.foldl (fun acc c => 10 * acc + (c.toNat - 48)) 0

/-- Mirrors try_parse_number of src/lib.rs, whose body is Rust's
str::parse::<f64>.  The finite-literal grammar (optional sign, decimal digits
with an optional point, optional decimal exponent) is modelled exactly over
the rationals; f64 parsing additionally rounds to the nearest float and
accepts the word forms for infinities and NaN, which have no rational
counterpart and on which no claim depends. -/
def try_parse_number (token : String) : Option ℚ :=
  let cs := token.data
  let signSplit : ℚ × List Char :=
    match cs with
    | c :: rest =>
      if c = '-' then (-1, rest) else if c = '+' then (1, rest) else (1, cs)
    | [] => (1, [])
  let sgn := signSplit.1
  let cs1 := signSplit.2
  let intDigits := cs1.takeWhile Char.isDigit
  let rest1 := cs1.dropWhile Char.isDigit
  let mantissa : Option (ℚ × List Char) :=
    match rest1 with
    | '.' :: rest2 =>
      let fracDigits := rest2.takeWhile Char.isDigit
      let rest3 := rest2.dropWhile Char.isDigit
      if intDigits.isEmpty && fracDigits.isEmpty then none
      else
        some ((read_digits intDigits : ℚ)
          + (read_digits fracDigits : ℚ) / 10 ^ fracDigits.length, rest3)
    | _ =>
      if intDigits.isEmpty then none
      else some ((read_digits intDigits : ℚ), rest1)
  match mantissa with
  | none => none
  | some (m, rest) =>
    match rest with
    | [] => some (sgn * m)
    | c :: rest2 =>
      if c = 'e' || c = 'E' then
        let expSplit : Bool × List Char :=
          match rest2 with
          | d :: r =>
            if d = '-' then (false, r)
            else if d = '+' then (true, r)
            else (true, rest2)
          | [] => (true, [])
        let eDigits := expSplit.2.takeWhile Char.isDigit
        let eRest := expSplit.2.dropWhile Char.isDigit
        if eDigits.isEmpty || !eRest.isEmpty then none
        else if expSplit.1 then some (sgn * m * 10 ^ read_digits eDigits)
        else some (sgn * m / 10 ^ read_digits eDigits)
      else none

/-- Mirrors try_parse_variable of src/lib.rs: every token is accepted as a
variable name (the source marks the restriction of names as a TODO). -/
def try_parse_variable (token : String) : Option String :=
  some token

/-- Mirrors find_closing_parenthesis_pos of src/lib.rs, phrased on the token
list after the open parenthesis: scan with a nesting depth (the source's
count minus one); on the matching close parenthesis return the tokens
strictly inside the group and the tokens after it, exactly the two slices the
source carves out of the position it returns.  Returning none corresponds to
the source's unbalanced-parenthesis Err, raised when the scan exhausts the
input with a positive count. -/
def find_closing_parenthesis (depth : Nat) (l : List String) :
    Option (List String × List String) :=
  match l with
  | [] => none
  | t :: rest =>
    if t = OPEN_PARENTHESIS then
      (find_closing_parenthesis (depth + 1) rest).map (fun p => (t :: p.1, p.2))
    else if t = CLOSED_PARENTHESIS then
      match depth with
      | 0 => some ([], rest)
      | d + 1 => (find_closing_parenthesis d rest).map (fun p => (t :: p.1, p.2))
    else
      (find_closing_parenthesis depth rest).map (fun p => (t :: p.1, p.2))

/-- Loop body of resolve_unary_operators of src/lib.rs.  The stack is a list
with its top at the head; t is the operand on top, s the stack below it.
While the entry below the top operand is an operator and the entry below that
is an operator or absent, the operator and operand are replaced by a unary
node (left operand none). -/
def resolve_unary_loop (t : Tree) (s : List ParsedToken) : List ParsedToken :=
  match s with
  | [] => [ParsedToken.operand t]
  | ParsedToken.operator o :: rest =>
    match rest with
    | [] => resolve_unary_loop (Tree.node o none t) rest
    | ParsedToken.operator _ :: _ => resolve_unary_loop (Tree.node o none t) rest
    | ParsedToken.operand _ :: _ =>
      ParsedToken.operand t :: ParsedToken.operator o :: rest
  | ParsedToken.operand _ :: _ => ParsedToken.operand t :: s

/-- Mirrors resolve_unary_operators of src/lib.rs.  The entry assertions
(stack nonempty, top of stack an operand) abort the process on failure,
modelled by none. -/
def resolve_unary_operators (stack : List ParsedToken) :
    Option (List ParsedToken) :=
  match stack with
  | ParsedToken.operand t :: rest => some (resolve_unary_loop t rest)
  | _ => none

/-- Loop body of resolve_binary_operators of src/lib.rs: while the three top
entries are operand, operator, operand and the operator's priority is at
least minP, replace them by one binary node. -/
def resolve_binary_loop (r : Tree) (s : List ParsedToken) (minP : Nat) :
    List ParsedToken :=
  match s with
  | ParsedToken.operator o :: ParsedToken.operand l :: rest =>
    if o.get_priority < minP then ParsedToken.operand r :: s
    else resolve_binary_loop (Tree.node o (some l) r) rest minP
  | _ => ParsedToken.operand r :: s

/-- Mirrors resolve_binary_operators of src/lib.rs.  The entry assertions
(stack nonempty, top of stack an operand) abort the process on failure,
modelled by none. -/
def resolve_binary_operators (stack : List ParsedToken) (minP : Nat) :
    Option (List ParsedToken) :=
  match stack with
  | ParsedToken.operand r :: rest => some (resolve_binary_loop r rest minP)
  | _ => none

/-- Token-consuming loop of parse_tokens of src/lib.rs: push each operand and
resolve unary operators, resolve binary operators under each operator's
priority before pushing it.  none models an abort inside the resolvers. -/
def run_stack_loop : List ParsedToken → List ParsedToken → Option (List ParsedToken)
  | [], stack => some stack
  | ParsedToken.operand t :: rest, stack =>
    match resolve_unary_operators (ParsedToken.operand t :: stack) with
    | some s2 => run_stack_loop rest s2
    | none => none
  | ParsedToken.operator o :: rest, stack =>
    match resolve_binary_operators stack o.get_priority with
    | some s2 => run_stack_loop rest (ParsedToken.operator o :: s2)
    | none => none

/-- Tail of parse_tokens of src/lib.rs: run the stack loop, resolve binary
operators with minimum priority 0, then demand a single operand on the stack;
the source asserts the stack length is one and aborts otherwise. -/
def finish_parse (ptoks : List ParsedToken) : RunResult Tree :=
  match run_stack_loop ptoks [] with
  | none => .panic
  | some stack =>
    match resolve_binary_operators stack 0 with
    | none => .panic
    | some s2 =>
      match s2 with
      | [ParsedToken.operand t] => .ok t
      | _ => .panic

/-- Message of the Err raised by find_closing_parenthesis_pos of src/lib.rs. -/
def unbalanced_parenthesis_message (pos : Nat) : String :=
  "Parenthesis at pos " ++ Nat.repr pos ++ " is not balanced!"

/-- Message of the residual Err of try_parse_next of src/lib.rs. -/
def cannot_parse_message (token : String) : String :=
  "Cannot parse token " ++ token

/-- Mirrors intermediate_parse together with try_parse_next of src/lib.rs:
walk the token list, turning each token into a ParsedToken; an open
parenthesis finds its matching close parenthesis and parses the group with a
recursive parse_tokens (inlined here as finish_parse after the recursive
call), continuing after the close parenthesis; otherwise the token is tried
as an operator, then a number, then a variable, and the residual cannot-parse
Err of try_parse_next is kept although try_parse_variable never declines.
pos tracks the source's current_pos, used only in the unbalanced-parenthesis
message.  The fuel argument makes the recursion structural; every recursive
call is on a strictly shorter list, so fuel of list length + 1 (what
parse_tokens supplies) never runs out; running out is modelled as panic. -/
def intermediate_parse : Nat → List String → Nat → RunResult (List ParsedToken)
  | _, [], _ => .ok []
  | 0, _ :: _, _ => .panic
  | fuel + 1, t :: rest, pos =>
    if t = OPEN_PARENTHESIS then
      match find_closing_parenthesis 0 rest with
      | none => .err (unbalanced_parenthesis_message pos)
      | some (inside, after) =>
        match intermediate_parse fuel inside 0 with
        | .err e => .err e
        | .panic => .panic
        | .ok insideToks =>
          match finish_parse insideToks with
          | .err e => .err e
          | .panic => .panic
          | .ok tr =>
            (intermediate_parse fuel after (pos + inside.length + 2)).map
              (fun l => ParsedToken.operand tr :: l)
    else
      match try_parse_operator t with
      | some o =>
        (intermediate_parse fuel rest (pos + 1)).map
          (fun l => ParsedToken.operator o :: l)
      | none =>
        match try_parse_number t with
        | some q =>
          (intermediate_parse fuel rest (pos + 1)).map
            (fun l => ParsedToken.operand (Tree.numberLeaf q) :: l)
        | none =>
          match try_parse_variable t with
          | some v =>
            (intermediate_parse fuel rest (pos + 1)).map
              (fun l => ParsedToken.operand (Tree.variableLeaf v) :: l)
          | none => .err (cannot_parse_message t)

/-- Mirrors parse_tokens of src/lib.rs: intermediate parse, then the stack
reduction of finish_parse. -/
def parse_tokens (tokens : List String) : RunResult Tree :=
  match intermediate_parse (tokens.length + 1) tokens 0 with
  | .ok ptoks => finish_parse ptoks
  | .err e => .err e
  | .panic => .panic

/-- Mirrors one str::replace call of parse_string of src/lib.rs: every
occurrence of the single character c is replaced by space, c, space. -/
def replace_with_spaces (c : Char) : List Char → List Char
  | [] => []
  | a :: rest =>
    if a = c then ' ' :: a :: ' ' :: replace_with_spaces c rest
    else a :: replace_with_spaces c rest

/-- Mirrors str::split with the space character: cut the character list at
every space, keeping empty pieces (filtered out by tokenize, as in the
source). -/
def split_on_space : List Char → List Char → List String
  | [], acc => [String.mk acc.reverse]
  | a :: rest, acc =>
    if a = ' ' then String.mk acc.reverse :: split_on_space rest []
    else split_on_space rest (a :: acc)

/-- Tokenization of parse_string of src/lib.rs: space out both parentheses
and the four operator symbols in source order, split on spaces, drop empty
pieces. -/
def tokenize (s : String) : List String :=
  let s1 := replace_with_spaces '(' s.data
  let s2 := replace_with_spaces ')' s1
  let s3 := replace_with_spaces '+' s2
  let s4 := replace_with_spaces '-' s3
  let s5 := replace_with_spaces '*' s4
  let s6 := replace_with_spaces '/' s5
  (split_on_space s6 []).filter (fun t => t ≠ "")

/-- Mirrors parse_string of src/lib.rs. -/
def parse_string (s : String) : RunResult Tree :=
  parse_tokens (tokenize s)

/-- Error message of the undefined-variable arm of Tree::execute. -/
def undefined_variable_message (x : String) : String :=
  "Value for variable " ++ x ++ " must be provided"

/-- Mirrors Tree::execute of src/lib.rs.  The variable table is modelled as
an association list (the source HashMap has unique keys).  A node without a
left operand reaches the unimplemented arm, an abort, modelled by panic; the
left operand is evaluated before the right one and errors propagate. -/
def Tree.execute (t : Tree) (vars : List (String × ℚ)) : RunResult ℚ :=
  match t with
  | .numberLeaf n => .ok n
  | .variableLeaf x =>
    match vars.lookup x with
    | some n => .ok n
    | none => .err (undefined_variable_message x)
  | .node op left_operand right_operand =>
    match left_operand with
    | none => .panic
    | some l =>
      match l.execute vars with
      | .err e => .err e
      | .panic => .panic
      | .ok leftv =>
        match right_operand.execute vars with
        | .err e => .err e
        | .panic => .panic
        | .ok rightv => .ok (op.execute_binary leftv rightv)

/-- Composition used by the tests of src/lib.rs and by the spec scenarios:
parse a string and evaluate the resulting tree, propagating failures. -/
def eval_string (s : String) (vars : List (String × ℚ)) : RunResult ℚ :=
  match parse_string s with
  | .ok t => t.execute vars
  | .err e => .err e
  | .panic => .panic

/-- Trees in which every node is binary (its left operand is present); the
parser only ever produces such trees. -/
def binary_only : Tree → Bool
  | .numberLeaf _ => true
  | .variableLeaf _ => true
  | .node _ none _ => false
  | .node _ (some l) r => binary_only l && binary_only r

/-- Variable names referenced by a tree, in evaluation order. -/
def referenced_variables : Tree → List String
  | .numberLeaf _ => []
  | .variableLeaf x => [x]
  | .node _ none r => referenced_variables r
  | .node _ (some l) r => referenced_variables l ++ referenced_variables r

/-- A parsed token whose operand tree, if it holds one, is binary-only. -/
def ParsedToken.binary_operand : ParsedToken → Bool
  | .operand t => binary_only t
  | .operator _ => true

/-- No two adjacent stack entries are operators. -/
def no_adjacent_operators : List ParsedToken → Bool
  | [] => true
  | [_] => true
  | a :: b :: rest =>
    !(a.is_operator && b.is_operator) && no_adjacent_operators (b :: rest)

/-- The bottom of the stack (last entry of the top-first list), if present,
is an operand. -/
def bottom_is_operand : List ParsedToken → Bool
  | [] => true
  | [t] => t.is_operand
  | _ :: b :: rest => bottom_is_operand (b :: rest)

/-- Invariant maintained by the stack of parse_tokens: the bottom entry is an
operand, no two operators are adjacent, and every operand tree on the stack
is binary-only. -/
def good_stack (s : List ParsedToken) : Prop :=
  no_adjacent_operators s = true ∧ bottom_is_operand s = true ∧
    s.all ParsedToken.binary_operand = true

theorem good_stack_nil : good_stack [] := ⟨rfl, rfl, rfl⟩

theorem good_stack_cons_operand {t : Tree} {s : List ParsedToken}
    (hb : binary_only t = true) (hs : good_stack s) :
    good_stack (ParsedToken.operand t :: s) := by
  obtain ⟨h1, h2, h3⟩ := hs
  refine ⟨?_, ?_, ?_⟩
  · cases s with
    | nil => rfl
    | cons b rest => simp [no_adjacent_operators, ParsedToken.is_operator, h1]
  · cases s with
    | nil => rfl
    | cons b rest => simpa [bottom_is_operand] using h2
  · simp [List.all_cons, ParsedToken.binary_operand, hb, h3]

theorem good_stack_cons_operator {o : Operator} {r : Tree} {s : List ParsedToken}
    (hs : good_stack (ParsedToken.operand r :: s)) :
    good_stack (ParsedToken.operator o :: ParsedToken.operand r :: s) := by
  obtain ⟨h1, h2, h3⟩ := hs
  refine ⟨?_, ?_, ?_⟩
  · simp [no_adjacent_operators, ParsedToken.is_operator] at h1 ⊢
    exact h1
  · simpa [bottom_is_operand] using h2
  · simpa [List.all_cons, ParsedToken.binary_operand] using h3

theorem resolve_unary_loop_id {t : Tree} {s : List ParsedToken}
    (h : good_stack (ParsedToken.operand t :: s)) :
    resolve_unary_loop t s = ParsedToken.operand t :: s := by
  cases s with
  | nil => rfl
  | cons a rest =>
    cases a with
    | operand u => rfl
    | operator o =>
      cases rest with
      | nil =>
        exact absurd h.2.1 (by simp [bottom_is_operand, ParsedToken.is_operand])
      | cons b rest2 =>
        cases b with
        | operand u => rfl
        | operator o2 =>
          exact absurd h.1
            (by simp [no_adjacent_operators, ParsedToken.is_operator])

theorem good_stack_decompose3 {r l : Tree} {o : Operator}
    {rest : List ParsedToken}
    (h : good_stack (ParsedToken.operand r :: ParsedToken.operator o ::
      ParsedToken.operand l :: rest)) :
    binary_only r = true ∧ binary_only l = true ∧ good_stack rest := by
  obtain ⟨h1, h2, h3⟩ := h
  simp only [List.all_cons, Bool.and_eq_true, ParsedToken.binary_operand] at h3
  obtain ⟨hbr, -, hbl, hall⟩ := h3
  refine ⟨hbr, hbl, ?_, ?_, hall⟩
  · cases rest with
    | nil => rfl
    | cons b r2 =>
      simpa [no_adjacent_operators, ParsedToken.is_operator] using h1
  · cases rest with
    | nil => rfl
    | cons b r2 => simpa [bottom_is_operand] using h2

theorem resolve_binary_loop_good : ∀ (r : Tree) (s : List ParsedToken)
    (minP : Nat), good_stack (ParsedToken.operand r :: s) →
    good_stack (resolve_binary_loop r s minP) ∧
      ∃ r2 s2, resolve_binary_loop r s minP = ParsedToken.operand r2 :: s2
  | r, [], _, h => ⟨h, r, [], rfl⟩
  | r, ParsedToken.operand u :: rest, _, h =>
    ⟨h, r, ParsedToken.operand u :: rest, rfl⟩
  | r, ParsedToken.operator o :: [], _, h => ⟨h, r, [ParsedToken.operator o], rfl⟩
  | r, ParsedToken.operator o :: ParsedToken.operator o2 :: rest, _, h =>
    ⟨h, r, ParsedToken.operator o :: ParsedToken.operator o2 :: rest, rfl⟩
  | r, ParsedToken.operator o :: ParsedToken.operand l :: rest, minP, h => by
    obtain ⟨hbr, hbl, hrest⟩ := good_stack_decompose3 h
    by_cases hp : o.get_priority < minP
    · simp only [resolve_binary_loop, if_pos hp]
      exact ⟨h, r, _, rfl⟩
    · simp only [resolve_binary_loop, if_neg hp]
      exact resolve_binary_loop_good (Tree.node o (some l) r) rest minP
        (good_stack_cons_operand (by simp [binary_only, hbl, hbr]) hrest)

theorem run_stack_loop_good : ∀ (ptoks stack out : List ParsedToken),
    ptoks.all ParsedToken.binary_operand = true → good_stack stack →
    run_stack_loop ptoks stack = some out → good_stack out := by
  intro ptoks
  induction ptoks with
  | nil =>
    intro stack out _ hs h
    simp only [run_stack_loop, Option.some.injEq] at h
    exact h ▸ hs
  | cons a rest ih =>
    intro stack out hp hs h
    simp only [List.all_cons, Bool.and_eq_true] at hp
    obtain ⟨ha, hrest⟩ := hp
    cases a with
    | operand t =>
      have hgood : good_stack (ParsedToken.operand t :: stack) :=
        good_stack_cons_operand
          (by simpa [ParsedToken.binary_operand] using ha) hs
      have hid : resolve_unary_loop t stack = ParsedToken.operand t :: stack :=
        resolve_unary_loop_id hgood
      simp only [run_stack_loop, resolve_unary_operators, hid] at h
      exact ih (ParsedToken.operand t :: stack) out hrest hgood h
    | operator o =>
      cases stack with
      | nil => simp [run_stack_loop, resolve_binary_operators] at h
      | cons b srest =>
        cases b with
        | operator o2 => simp [run_stack_loop, resolve_binary_operators] at h
        | operand rtop =>
          obtain ⟨hg2, r2, s2, heq⟩ :=
            resolve_binary_loop_good rtop srest o.get_priority hs
          simp only [run_stack_loop, resolve_binary_operators] at h
          rw [heq] at h hg2
          exact ih _ out hrest (good_stack_cons_operator hg2) h

theorem finish_parse_binary (ptoks : List ParsedToken) (t : Tree)
    (hp : ptoks.all ParsedToken.binary_operand = true)
    (h : finish_parse ptoks = RunResult.ok t) : binary_only t = true := by
  unfold finish_parse at h
  cases hrun : run_stack_loop ptoks [] with
  | none => simp only [hrun] at h; simp at h
  | some stack =>
    simp only [hrun] at h
    have hstack : good_stack stack :=
      run_stack_loop_good ptoks [] stack hp good_stack_nil hrun
    cases stack with
    | nil => simp [resolve_binary_operators] at h
    | cons b srest =>
      cases b with
      | operator o2 => simp [resolve_binary_operators] at h
      | operand rtop =>
        obtain ⟨hg2, r2, s2, heq⟩ := resolve_binary_loop_good rtop srest 0 hstack
        simp only [resolve_binary_operators] at h
        rw [heq] at h hg2
        cases s2 with
        | nil =>
          simp only [RunResult.ok.injEq] at h
          subst h
          simpa [List.all_cons, ParsedToken.binary_operand] using hg2.2.2
        | cons c s3 => simp at h

theorem intermediate_parse_binary : ∀ (fuel : Nat) (tokens : List String)
    (pos : Nat) (ptoks : List ParsedToken),
    intermediate_parse fuel tokens pos = RunResult.ok ptoks →
    ptoks.all ParsedToken.binary_operand = true := by
  intro fuel
  induction fuel with
  | zero =>
    intro tokens pos ptoks h
    cases tokens with
    | nil =>
      simp only [intermediate_parse, RunResult.ok.injEq] at h
      simp [← h]
    | cons t rest => simp [intermediate_parse] at h
  | succ fuel ih =>
    intro tokens pos ptoks h
    cases tokens with
    | nil =>
      simp only [intermediate_parse, RunResult.ok.injEq] at h
      simp [← h]
    | cons t rest =>
      by_cases hopen : t = OPEN_PARENTHESIS
      · simp only [intermediate_parse, if_pos hopen] at h
        cases hfc : find_closing_parenthesis 0 rest with
        | none => simp only [hfc] at h; simp at h
        | some p =>
          obtain ⟨inside, after⟩ := p
          simp only [hfc] at h
          cases hin : intermediate_parse fuel inside 0 with
          | err e => simp only [hin] at h; simp at h
          | panic => simp only [hin] at h; simp at h
          | ok insideToks =>
            simp only [hin] at h
            cases hfin : finish_parse insideToks with
            | err e => simp only [hfin] at h; simp at h
            | panic => simp only [hfin] at h; simp at h
            | ok tr =>
              simp only [hfin] at h
              cases haft : intermediate_parse fuel after (pos + inside.length + 2) with
              | err e => simp only [haft] at h; simp [RunResult.map] at h
              | panic => simp only [haft] at h; simp [RunResult.map] at h
              | ok afterToks =>
                simp only [haft] at h
                simp only [RunResult.map, RunResult.ok.injEq] at h
                have hbtr : binary_only tr = true :=
                  finish_parse_binary insideToks tr (ih inside 0 insideToks hin) hfin
                have hafter := ih after _ afterToks haft
                simp [← h, List.all_cons, ParsedToken.binary_operand, hbtr, hafter]
      · simp only [intermediate_parse, if_neg hopen] at h
        cases hop : try_parse_operator t with
        | some o =>
          simp only [hop] at h
          cases hr : intermediate_parse fuel rest (pos + 1) with
          | err e => simp only [hr] at h; simp [RunResult.map] at h
          | panic => simp only [hr] at h; simp [RunResult.map] at h
          | ok l =>
            simp only [hr] at h
            simp only [RunResult.map, RunResult.ok.injEq] at h
            have hl := ih rest _ l hr
            simp [← h, List.all_cons, ParsedToken.binary_operand, hl]
        | none =>
          simp only [hop] at h
          cases hnum : try_parse_number t with
          | some q =>
            simp only [hnum] at h
            cases hr : intermediate_parse fuel rest (pos + 1) with
            | err e => simp only [hr] at h; simp [RunResult.map] at h
            | panic => simp only [hr] at h; simp [RunResult.map] at h
            | ok l =>
              simp only [hr] at h
              simp only [RunResult.map, RunResult.ok.injEq] at h
              have hl := ih rest _ l hr
              simp [← h, List.all_cons, ParsedToken.binary_operand, binary_only, hl]
          | none =>
            simp only [hnum] at h
            simp only [try_parse_variable] at h
            cases hr : intermediate_parse fuel rest (pos + 1) with
            | err e => simp only [hr] at h; simp [RunResult.map] at h
            | panic => simp only [hr] at h; simp [RunResult.map] at h
            | ok l =>
              simp only [hr] at h
              simp only [RunResult.map, RunResult.ok.injEq] at h
              have hl := ih rest _ l hr
              simp [← h, List.all_cons, ParsedToken.binary_operand, binary_only, hl]

theorem execute_no_panic : ∀ (t : Tree) (vars : List (String × ℚ)),
    binary_only t = true → Tree.execute t vars ≠ RunResult.panic
  | .numberLeaf n, vars, _ => by simp [Tree.execute]
  | .variableLeaf x, vars, _ => by
    cases h : vars.lookup x <;> simp [Tree.execute, h]
  | .node o none r, vars, hb => by simp [binary_only] at hb
  | .node o (some l) r, vars, hb => by
    simp only [binary_only, Bool.and_eq_true] at hb
    obtain ⟨hl, hr⟩ := hb
    have ihl := execute_no_panic l vars hl
    have ihr := execute_no_panic r vars hr
    cases hle : Tree.execute l vars with
    | err e => simp [Tree.execute, hle]
    | panic => exact absurd hle ihl
    | ok lv =>
      cases hre : Tree.execute r vars with
      | err e => simp [Tree.execute, hle, hre]
      | panic => exact absurd hre ihr
      | ok rv => simp [Tree.execute, hle, hre]

theorem finish_parse_ne_err (ptoks : List ParsedToken) (e : String) :
    finish_parse ptoks ≠ RunResult.err e := by
  intro h
  unfold finish_parse at h
  cases hrun : run_stack_loop ptoks [] with
  | none => simp only [hrun] at h; simp at h
  | some stack =>
    simp only [hrun] at h
    cases hrb : resolve_binary_operators stack 0 with
    | none => simp only [hrb] at h; simp at h
    | some s2 =>
      simp only [hrb] at h
      cases s2 with
      | nil => simp at h
      | cons a s3 =>
        cases a with
        | operator o => simp at h
        | operand t =>
          cases s3 with
          | nil => simp at h
          | cons b s4 => simp at h

theorem intermediate_parse_err_unbalanced : ∀ (fuel : Nat)
    (tokens : List String) (pos : Nat) (e : String),
    intermediate_parse fuel tokens pos = RunResult.err e →
    ∃ n, e = unbalanced_parenthesis_message n := by
  intro fuel
  induction fuel with
  | zero =>
    intro tokens pos e h
    cases tokens with
    | nil => simp [intermediate_parse] at h
    | cons t rest => simp [intermediate_parse] at h
  | succ fuel ih =>
    intro tokens pos e h
    cases tokens with
    | nil => simp [intermediate_parse] at h
    | cons t rest =>
      by_cases hopen : t = OPEN_PARENTHESIS
      · simp only [intermediate_parse, if_pos hopen] at h
        cases hfc : find_closing_parenthesis 0 rest with
        | none =>
          simp only [hfc] at h
          simp only [RunResult.err.injEq] at h
          exact ⟨pos, h.symm⟩
        | some p =>
          obtain ⟨inside, after⟩ := p
          simp only [hfc] at h
          cases hin : intermediate_parse fuel inside 0 with
          | err e2 =>
            simp only [hin] at h
            simp only [RunResult.err.injEq] at h
            exact h ▸ ih inside 0 e2 hin
          | panic => simp only [hin] at h; simp at h
          | ok insideToks =>
            simp only [hin] at h
            cases hfin : finish_parse insideToks with
            | err e2 => exact absurd hfin (finish_parse_ne_err insideToks e2)
            | panic => simp only [hfin] at h; simp at h
            | ok tr =>
              simp only [hfin] at h
              cases haft : intermediate_parse fuel after (pos + inside.length + 2) with
              | err e2 =>
                simp only [haft] at h
                simp only [RunResult.map, RunResult.err.injEq] at h
                exact h ▸ ih after _ e2 haft
              | panic => simp only [haft] at h; simp [RunResult.map] at h
              | ok l => simp only [haft] at h; simp [RunResult.map] at h
      · simp only [intermediate_parse, if_neg hopen] at h
        cases hop : try_parse_operator t with
        | some o =>
          simp only [hop] at h
          cases hr : intermediate_parse fuel rest (pos + 1) with
          | err e2 =>
            simp only [hr] at h
            simp only [RunResult.map, RunResult.err.injEq] at h
            exact h ▸ ih rest _ e2 hr
          | panic => simp only [hr] at h; simp [RunResult.map] at h
          | ok l => simp only [hr] at h; simp [RunResult.map] at h
        | none =>
          simp only [hop] at h
          cases hnum : try_parse_number t with
          | some q =>
            simp only [hnum] at h
            cases hr : intermediate_parse fuel rest (pos + 1) with
            | err e2 =>
              simp only [hr] at h
              simp only [RunResult.map, RunResult.err.injEq] at h
              exact h ▸ ih rest _ e2 hr
            | panic => simp only [hr] at h; simp [RunResult.map] at h
            | ok l => simp only [hr] at h; simp [RunResult.map] at h
          | none =>
            simp only [hnum] at h
            simp only [try_parse_variable] at h
            cases hr : intermediate_parse fuel rest (pos + 1) with
            | err e2 =>
              simp only [hr] at h
              simp only [RunResult.map, RunResult.err.injEq] at h
              exact h ▸ ih rest _ e2 hr
            | panic => simp only [hr] at h; simp [RunResult.map] at h
            | ok l => simp only [hr] at h; simp [RunResult.map] at h

unseal Rat.add Rat.sub Rat.mul Rat.inv in
/-- C1: parsing the composite scenario string succeeds and evaluating the
resulting tree with the table mapping xz to 4 and yy to 1 yields exactly -9:
star and slash bind tighter than plus, equal priorities reduce left to right,
and parenthesized groups are parsed recursively. -/
theorem composite_scenario :
    eval_string ("3 + 4 * (2 + yy / (3-xz) * ((5)))")
      [(("xz"), 4), (("yy"), 1)] = RunResult.ok (-9) := by
  decide

/-- C2: on inputs whose final token stack is not a single operand the source
does not return a structured error; it aborts.  With input of two operands
the final stack-length-one assertion of parse_tokens fails, and with a
trailing operator the final resolve_binary_operators asserts that the top of
the stack is an operand and fails. -/
theorem malformed_stack_aborts :
    parse_string ("2 3") = RunResult.panic ∧
      parse_string ("2 +") = RunResult.panic := by
  decide

/-- C3: parsing a leading unary minus aborts instead of producing a negation
node: the first processed token is an operator, and resolve_binary_operators
asserts that the stack is nonempty before any operand was pushed. -/
theorem unary_minus_aborts :
    parse_string ("-x") = RunResult.panic := by
  decide

/-- C4: the n-ary prefix plus scenario aborts: the comma-separated list is
lexed as the single variable token 2,3,4 and the leading plus is an operator
processed on an empty stack, hitting the same assertion as the unary case. -/
theorem nary_plus_aborts :
    parse_string ("+(2,3,4)") = RunResult.panic := by
  decide

/-- C5: an unmatched close parenthesis is not a ParseError: the close
parenthesis token falls through to try_parse_variable, which accepts every
token, so parsing returns an Ok tree holding a variable leaf named by the
close parenthesis. -/
theorem unmatched_close_paren_parses :
    parse_string (")") = RunResult.ok (Tree.variableLeaf (")")) := by
  decide

/-- C6: a token that is not a number, not an operator symbol and not an
alphanumeric identifier does not cause a ParseError naming it; it is accepted
by try_parse_variable as a variable name. -/
theorem unrecognized_token_accepted :
    parse_string ("@") = RunResult.ok (Tree.variableLeaf ("@")) := by
  decide

/-- C7: an empty parenthesized group aborts instead of returning a
ParseError: the group's recursive parse runs the final
resolve_binary_operators on an empty stack, whose nonemptiness assertion
fails.  The same happens when the group holds only whitespace. -/
theorem empty_group_aborts :
    parse_string ("()") = RunResult.panic ∧
      parse_string ("( )") = RunResult.panic := by
  decide

/-- C8 counterexample: evaluating a tree that contains a variable leaf whose
name is absent from the table does not always return an EvalError naming the
variable: a node without a left operand reaches the unimplemented arm of the
evaluator first, which aborts. -/
theorem unary_node_eval_aborts :
    Tree.execute (Tree.node Operator.plus none (Tree.variableLeaf ("x"))) []
      = RunResult.panic := by
  decide

/-- C8 (amended to trees whose nodes are all binary, the only trees the
parser produces): evaluation succeeds whenever the table covers every
referenced variable name, and when some referenced name is absent it returns
the EvalError naming an absent referenced variable (the first one in
evaluation order). -/
theorem execute_lookup_spec : ∀ (t : Tree) (vars : List (String × ℚ)),
    binary_only t = true →
    ((∀ x ∈ referenced_variables t, (vars.lookup x).isSome = true) →
        ∃ q, Tree.execute t vars = RunResult.ok q) ∧
      ((∃ x ∈ referenced_variables t, vars.lookup x = none) →
        ∃ x, x ∈ referenced_variables t ∧ vars.lookup x = none ∧
          Tree.execute t vars = RunResult.err (undefined_variable_message x))
  | .numberLeaf n, vars, _ => by
    constructor
    · intro _
      exact ⟨n, rfl⟩
    · rintro ⟨x, hx, _⟩
      simp [referenced_variables] at hx
  | .variableLeaf y, vars, _ => by
    constructor
    · intro hc
      have hy := hc y (by simp [referenced_variables])
      cases hl : vars.lookup y with
      | none => rw [hl] at hy; simp at hy
      | some n => exact ⟨n, by simp [Tree.execute, hl]⟩
    · rintro ⟨x, hx, hnone⟩
      simp only [referenced_variables, List.mem_singleton] at hx
      subst hx
      exact ⟨x, by simp [referenced_variables], hnone,
        by simp [Tree.execute, hnone]⟩
  | .node o none r, vars, hb => by simp [binary_only] at hb
  | .node o (some l) r, vars, hb => by
    simp only [binary_only, Bool.and_eq_true] at hb
    obtain ⟨hbl, hbr⟩ := hb
    obtain ⟨ihl1, ihl2⟩ := execute_lookup_spec l vars hbl
    obtain ⟨ihr1, ihr2⟩ := execute_lookup_spec r vars hbr
    constructor
    · intro hc
      obtain ⟨lv, hlv⟩ := ihl1 (fun x hx =>
        hc x (by simp [referenced_variables, hx]))
      obtain ⟨rv, hrv⟩ := ihr1 (fun x hx =>
        hc x (by simp [referenced_variables, hx]))
      exact ⟨o.execute_binary lv rv, by simp [Tree.execute, hlv, hrv]⟩
    · rintro ⟨x, hx, hnone⟩
      by_cases hcl : ∀ y ∈ referenced_variables l, (vars.lookup y).isSome = true
      · obtain ⟨lv, hlv⟩ := ihl1 hcl
        have hxlr : x ∈ referenced_variables l ∨ x ∈ referenced_variables r := by
          simpa [referenced_variables] using hx
        have hxr : x ∈ referenced_variables r := by
          rcases hxlr with hxl | hxr
          · exact absurd (hcl x hxl) (by simp [hnone])
          · exact hxr
        obtain ⟨y, hy, hynone, hyerr⟩ := ihr2 ⟨x, hxr, hnone⟩
        exact ⟨y, by simp [referenced_variables, hy], hynone,
          by simp [Tree.execute, hlv, hyerr]⟩
      · push_neg at hcl
        obtain ⟨y, hy, hynotsome⟩ := hcl
        have hynone : vars.lookup y = none := by
          cases hl : vars.lookup y with
          | none => rfl
          | some n => rw [hl] at hynotsome; simp at hynotsome
        obtain ⟨z, hz, hznone, hzerr⟩ := ihl2 ⟨y, hy, hynone⟩
        exact ⟨z, by simp [referenced_variables, hz], hznone,
          by simp [Tree.execute, hzerr]⟩

/-- Witness for the C8 theorem at a concrete binary tree and table. -/
theorem execute_lookup_spec_witness :
    ∃ q, Tree.execute
      (Tree.node Operator.plus (some (Tree.variableLeaf ("x")))
        (Tree.numberLeaf 1)) [(("x"), 4)] = RunResult.ok q :=
  (execute_lookup_spec
    (Tree.node Operator.plus (some (Tree.variableLeaf ("x")))
      (Tree.numberLeaf 1)) [(("x"), 4)] (by decide)).1 (by decide)

/-- C9: every tree returned by a successful parse_string is made of binary
nodes only, so evaluating it never reaches the unimplemented unary arm of
the evaluator. -/
theorem parse_never_builds_unary (s : String) (t : Tree)
    (h : parse_string s = RunResult.ok t) :
    binary_only t = true ∧ ∀ vars, Tree.execute t vars ≠ RunResult.panic := by
  have hb : binary_only t = true := by
    unfold parse_string parse_tokens at h
    cases hip : intermediate_parse ((tokenize s).length + 1) (tokenize s) 0 with
    | err e => simp only [hip] at h; simp at h
    | panic => simp only [hip] at h; simp at h
    | ok ptoks =>
      simp only [hip] at h
      exact finish_parse_binary ptoks t
        (intermediate_parse_binary _ _ _ _ hip) h
  exact ⟨hb, fun vars => execute_no_panic t vars hb⟩

unseal Rat.add Rat.sub Rat.mul Rat.inv in
/-- Witness for the C9 theorem at the concrete input string 3. -/
theorem parse_never_builds_unary_witness :
    binary_only (Tree.numberLeaf 3) = true ∧
      Tree.execute (Tree.numberLeaf 3) [] ≠ RunResult.panic :=
  ⟨(parse_never_builds_unary ("3") (Tree.numberLeaf 3) (by decide)).1,
    (parse_never_builds_unary ("3") (Tree.numberLeaf 3) (by decide)).2 []⟩

/-- C10: whenever parse_string returns an Err, that error is the
unbalanced-parenthesis error of find_closing_parenthesis_pos; the
cannot-parse arm of try_parse_next is unreachable because try_parse_variable
accepts every token. -/
theorem parse_error_always_unbalanced (s : String) (e : String)
    (h : parse_string s = RunResult.err e) :
    ∃ n, e = unbalanced_parenthesis_message n := by
  unfold parse_string parse_tokens at h
  cases hip : intermediate_parse ((tokenize s).length + 1) (tokenize s) 0 with
  | err e2 =>
    simp only [hip] at h
    simp only [RunResult.err.injEq] at h
    exact h ▸ intermediate_parse_err_unbalanced _ _ _ _ hip
  | panic => simp only [hip] at h; simp at h
  | ok ptoks =>
    simp only [hip] at h
    exact absurd h (finish_parse_ne_err ptoks e)

/-- Witness for the C10 theorem at the concrete input string of one open
parenthesis. -/
theorem parse_error_always_unbalanced_witness :
    ∃ n, unbalanced_parenthesis_message 0 = unbalanced_parenthesis_message n :=
  parse_error_always_unbalanced ("(") (unbalanced_parenthesis_message 0)
    (by decide)

end ArithmeticParser
